import Mathlib

/-!
Verification development for the reviewer-resolution engine of
spheric/auto-request-review (src/reviewer.js and src/github.js).

Modelling conventions:
* JavaScript strings are Lean `String`; reviewer identifiers are strings.
* An options object spread over defaults (`{ ...DEFAULT_OPTIONS, ...config.options }`)
  is modelled by `Option` fields plus `Option.getD default`: a `none` field is an
  absent key, a `some` field is a present key (even when its value is `false`),
  which matches the `=== undefined` presence checks in the source.
* JavaScript objects used as string-keyed maps (`reviewers.groups`,
  `reviewers.per_author`, `files`) are association lists `List (String × List String)`
  with first-match lookup.
* `[ ...new Set(xs) ]` is `js_dedup xs`: keep the first occurrence of each element.
* `Array.prototype.includes` is `List.contains`; `String.prototype.includes`
  is `js_includes` (contiguous substring, case sensitive).
* The `minimatch` glob library is an opaque matcher parameter
  `glob_match : String → String → Bool` (changed file, glob pattern): no claim
  depends on the glob dialect.
* `lodash/sampleSize` returns the first `n` entries of a random shuffle of the
  input; the shuffle is a `shuffled` parameter, constrained to be a permutation
  of the input in the theorems.
* The asynchronous collaborators (`github.list_team_members`,
  `github.list_requested_reviewers`) are parameters: a roster function and a
  requested-reviewer list; `list_team_members` itself is modelled over the
  outcome of the underlying API call.
-/

namespace AutoRequestReview

/-- First-occurrence deduplication worker: `seen` accumulates emitted elements. -/
def js_dedup_go {α : Type} [DecidableEq α] : List α → List α → List α
  | [], _ => []
  | x :: xs, seen =>
    if x ∈ seen then js_dedup_go xs seen else x :: js_dedup_go xs (x :: seen)

/-- Models `[ ...new Set(xs) ]`: drop every element equal to an earlier one,
keeping first-occurrence order. -/
def js_dedup {α : Type} [DecidableEq α] (xs : List α) : List α :=
  js_dedup_go xs []

/-- Models `haystack.includes(needle)` on JavaScript strings: `needle` occurs in
`haystack` as a contiguous, case-sensitive substring. -/
def js_includes (haystack needle : String) : Bool :=
  decide (needle.data <:+: haystack.data)

/-- Models `s.startsWith(pre)` on JavaScript strings, expressed on the
character sequences of the strings. -/
def js_starts_with (s pre : String) : Bool :=
  pre.data.isPrefixOf s.data

/-- The recognized keys of the `options` section of the configuration.
A `none` field models an absent key; `some v` models a present key with value
`v`, so the `{ ...DEFAULT_OPTIONS, ...config.options }` spreads of the source
become `Option.getD`, and the `=== undefined` presence checks become
comparisons with `none`. -/
structure Options where
  enable_group_assignment : Option Bool := none
  ignore_draft : Option Bool := none
  ignored_keywords : Option (List String) := none
  exclude : Option (List String) := none
  number_of_reviewers : Option Nat := none
  load_github_members : Option Bool := none
  force_pick : Option Bool := none
deriving DecidableEq

/-- The `reviewers` section: `defaults` is `some` exactly when
`Array.isArray(config.reviewers.defaults)` holds in the source; `per_author`
and `groups` are string-keyed maps modelled as association lists. -/
structure ReviewersConfig where
  defaults : Option (List String) := none
  per_author : Option (List (String × List String)) := none
  groups : Option (List (String × List String)) := none
deriving DecidableEq

/-- The parsed configuration document. -/
structure Config where
  options : Options := {}
  reviewers : Option ReviewersConfig := none
  files : Option (List (String × List String)) := none
deriving DecidableEq

/-- Models `(config.reviewers && config.reviewers.groups) || \x7b\x7d`. -/
def config_groups (config : Config) : List (String × List String) :=
  (config.reviewers.bind (·.groups)).getD []

/-- First-match lookup of a name in the groups map, `some members` when the
name is a key (so `Array.isArray(groups[reviewer])` holds in the source). -/
def groups_lookup (config : Config) (name : String) : Option (List String) :=
  (config_groups config).lookup name

/-- Source `replace_groups_with_individuals` (src/reviewer.js): each reviewer
naming a group is replaced by the member list of that group; every other
reviewer is kept as-is. -/
def replace_groups_with_individuals (reviewers : List String) (config : Config) :
    List String :=
  reviewers.flatMap fun reviewer =>
    match groups_lookup config reviewer with
    | some members => members
    | none => [reviewer]

/-- Source `exclude_reviewers` (src/reviewer.js):
`[ ...new Set(reviewers) ].filter((reviewer) => !excludes.includes(reviewer))`. -/
def exclude_reviewers (reviewers : List String) (excludes : List String) :
    List String :=
  (js_dedup reviewers).filter fun reviewer => !(excludes.contains reviewer)

/-- Source `fetch_other_group_members` (src/reviewer.js): when the
`enable_group_assignment` option (default `false`) is falsy, the empty list;
otherwise the names of groups whose member list contains the author (dropping
a falsy, i.e. empty, group name, as the truthiness filter of the source does),
flattened back to their member lists, with the author removed, deduplicated. -/
def fetch_other_group_members (author : String) (config : Config) : List String :=
  let should_group_assign := config.options.enable_group_assignment.getD false
  if should_group_assign = false then []
  else
    let groups := config_groups config
    let belonging_group_names :=
      ((groups.filter fun g => g.2.contains author).map Prod.fst).filter
        fun name => name ≠ ""
    let other_group_members :=
      (belonging_group_names.flatMap fun name => (groups.lookup name).getD []).filter
        fun member => member ≠ author
    js_dedup other_group_members

/-- Source `identify_reviewers_by_changed_files` (src/reviewer.js). The
`minimatch` glob matcher is the opaque parameter `glob_match changed_file pattern`.
For every `glob_pattern → reviewers` entry of `files`, if some changed file
matches the pattern, all of its reviewers join the pool; the pool is
group-expanded and exclusion-filtered. -/
def identify_reviewers_by_changed_files (glob_match : String → String → Bool)
    (config : Config) (changed_files : List String) (excludes : List String) :
    List String :=
  match config.files with
  | none => []
  | some files =>
    let matching_reviewers :=
      files.flatMap fun entry =>
        if changed_files.any (fun changed_file => glob_match changed_file entry.1)
        then entry.2 else []
    let individuals := replace_groups_with_individuals matching_reviewers config
    exclude_reviewers individuals excludes

/-- Source `identify_reviewers_by_author` (src/reviewer.js): keys of
`per_author` matching the author literally or through group expansion select
their reviewer lists, which are group-expanded, concatenated, and stripped of
the author. -/
def identify_reviewers_by_author (config : Config) (specified_author : String) :
    List String :=
  match config.reviewers.bind (·.per_author) with
  | none => []
  | some per_author =>
    let matching_authors :=
      (per_author.map Prod.fst).filter fun author =>
        author == specified_author
          || (replace_groups_with_individuals [author] config).contains
              specified_author
    let matching_reviewers :=
      matching_authors.flatMap fun matching_author =>
        replace_groups_with_individuals
          ((per_author.lookup matching_author).getD []) config
    matching_reviewers.filter fun reviewer => reviewer ≠ specified_author

/-- Source `should_request_review` (src/reviewer.js): `ignore_draft` defaults
to `true` and `ignored_keywords` to `["DO NOT REVIEW"]`; a draft with
`ignore_draft` effective yields `false`; otherwise the result is the negation
of a substring test of each keyword against the title. -/
def should_request_review (title : String) (is_draft : Bool) (config : Config) :
    Bool :=
  let should_ignore_draft := config.options.ignore_draft.getD true
  let ignored_keywords := config.options.ignored_keywords.getD ["DO NOT REVIEW"]
  if should_ignore_draft && is_draft then false
  else !(ignored_keywords.any fun keyword => js_includes title keyword)

/-- Source `fetch_default_reviewers` (src/reviewer.js): empty unless
`config.reviewers.defaults` is an array; otherwise the defaults are
group-expanded and exclusion-filtered. -/
def fetch_default_reviewers (config : Config) (excludes : List String) :
    List String :=
  match config.reviewers.bind (·.defaults) with
  | none => []
  | some defaults =>
    exclude_reviewers (replace_groups_with_individuals defaults config) excludes

/-- Source `filter_excluded_reviewers` (src/reviewer.js): the `options.exclude`
list (or `[]`) is group-expanded, and the result is removed from the
candidates by `exclude_reviewers`. -/
def filter_excluded_reviewers (reviewers : List String) (config : Config) :
    List String :=
  let excluded_individuals :=
    replace_groups_with_individuals (config.options.exclude.getD []) config
  exclude_reviewers reviewers excluded_individuals

/-- Source `randomly_pick_reviewers` (src/reviewer.js): identity when
`number_of_reviewers` is absent; otherwise `lodash/sampleSize`, modelled as
the first `n` entries of `shuffled`, a random permutation of the candidate
list supplied as a parameter and constrained by the theorems. -/
def randomly_pick_reviewers (shuffled : List String) (reviewers : List String)
    (config : Config) : List String :=
  match config.options.number_of_reviewers with
  | none => reviewers
  | some n => shuffled.take n

/-- Models `team_with_prefix.replace(\x27team:\x27, \x27\x27)`: on the strings this is
applied to (they pass a `startsWith(\x27team:\x27)` filter) the first occurrence of
`team:` is the five-character prefix, so the call drops it. -/
def strip_team_tag (s : String) : String :=
  if js_starts_with s "team:" then String.mk (s.data.drop 5) else s

/-- Source `fetch_author_belongs_to_github_team_members` (src/reviewer.js),
with every `github.list_team_members` call resolved to an actual roster list
through the `rosters` parameter. Identity when `load_github_members` is
absent; otherwise candidates are partitioned into `team:`-tagged references
and individuals, the referenced rosters are fetched, rosters not containing
the author are dropped unless `force_pick` (default `false`) is set, the kept
rosters are flattened, the author is removed from the flattened members, and
the members are appended to the individuals and deduplicated. -/
def fetch_author_belongs_to_github_team_members (rosters : String → List String)
    (reviewers : List String) (config : Config) (author : String) : List String :=
  match config.options.load_github_members with
  | none => reviewers
  | some _ =>
    let force_pick := config.options.force_pick.getD false
    let teams_tagged := reviewers.filter fun reviewer => js_starts_with reviewer "team:"
    let individuals := reviewers.filter fun reviewer => !(js_starts_with reviewer "team:")
    let teams := teams_tagged.map strip_team_tag
    let fetched := teams.map rosters
    let kept :=
      if force_pick then fetched
      else fetched.filter fun members => members.contains author
    let team_members := kept.flatten.filter fun member => member ≠ author
    js_dedup (individuals ++ team_members)

/-- Source `filter_already_requested_reviewers` (src/reviewer.js), with the
`github.list_requested_reviewers` collaborator supplied as the `requested`
parameter: identity when `load_github_members` is absent, otherwise the
requested reviewers are removed from the candidates. -/
def filter_already_requested_reviewers (requested : List String)
    (reviewers : List String) (config : Config) : List String :=
  match config.options.load_github_members with
  | none => reviewers
  | some _ => reviewers.filter fun reviewer => !(requested.contains reviewer)

/-- An error thrown by the GitHub API client, carrying its HTTP status. -/
structure ApiError where
  status : Nat
deriving DecidableEq

/-- One entry of the response body of `octokit.teams.listMembersInOrg`. -/
structure TeamMember where
  login : String
deriving DecidableEq

/-- Source `list_team_members` (src/github.js), as a function of the outcome of
the underlying `octokit.teams.listMembersInOrg` call. The first component is
the value the JavaScript function returns: `some logins` on success,
`some []` when the thrown error has status 404 (the catch branch), and `none`
(the JavaScript `undefined`, reached by falling off the catch block without a
return) for every other thrown error, which is therefore swallowed rather than
re-thrown. The second component is the list of `core.warning` messages the
call emits. -/
def list_team_members (outcome : Except ApiError (List TeamMember)) :
    Option (List String) × List String :=
  match outcome with
  | .ok response_body => (some (response_body.map TeamMember.login), [])
  | .error e =>
    if e.status = 404 then (some [], ["No team was found"]) else (none, [])

/-- Source `fetch_author_belongs_to_github_team_members` composed with the
possibly-undefined rosters that `github.list_team_members` can produce
(`rosters team = none` models an `undefined` roster). The result is `none`
when the stage throws: with `force_pick` falsy, the roster filter calls
`members.includes(author)` on each roster, so an `undefined` roster raises a
TypeError. With `force_pick` set the filter is skipped; `Array.prototype.flat`
keeps a non-array `undefined` element, so the JavaScript `undefined` value
itself (modelled as an inner `none`) survives into the member list and the
output. -/
def fetch_author_team_stage (rosters : String → Option (List String))
    (reviewers : List String) (config : Config) (author : String) :
    Option (List (Option String)) :=
  match config.options.load_github_members with
  | none => some (reviewers.map some)
  | some _ =>
    let force_pick := config.options.force_pick.getD false
    let teams_tagged := reviewers.filter fun reviewer => js_starts_with reviewer "team:"
    let individuals := reviewers.filter fun reviewer => !(js_starts_with reviewer "team:")
    let teams := teams_tagged.map strip_team_tag
    let fetched := teams.map rosters
    if force_pick = false ∧ fetched.any Option.isNone then none
    else
      let kept :=
        if force_pick then fetched
        else fetched.filter fun members? => (members?.getD []).contains author
      let flattened : List (Option String) :=
        kept.flatMap fun members? =>
          match members? with
          | some members => members.map some
          | none => [none]
      let team_members := flattened.filter fun member => member ≠ some author
      some (js_dedup (individuals.map some ++ team_members))

/-- Modelled from the spec: the candidate-merging pipeline lives in the entry
point of the repository, which is not under src/. Per the overview (stages
2 to 4) and the data-model invariant that the author is filtered at every
stage that could reintroduce them, the default, path-matched, author-matched
and group fan-out sources are collected with the author on the exclusion list
of the two sources that accept one, unioned and deduplicated, and the merged
set is passed through the global exclusion pass `filter_excluded_reviewers`. -/
def merged_candidates (glob_match : String → String → Bool) (config : Config)
    (author : String) (changed_files : List String) : List String :=
  filter_excluded_reviewers
    (js_dedup
      (fetch_default_reviewers config [author]
        ++ identify_reviewers_by_changed_files glob_match config changed_files [author]
        ++ identify_reviewers_by_author config author
        ++ fetch_other_group_members author config))
    config

/-- Modelled from the spec: stages 4 to 6 of the pipeline (deduplication and
global exclusion, then sampling, then the two live-reconciliation stages) as
composed by the entry point of the repository, which is not under src/. The
result is the sequence handed to the `assign_reviewers` collaborator. -/
def final_handoff (rosters : String → List String) (requested : List String)
    (shuffled : List String) (reviewers : List String) (config : Config)
    (author : String) : List String :=
  filter_already_requested_reviewers requested
    (fetch_author_belongs_to_github_team_members rosters
      (randomly_pick_reviewers shuffled (filter_excluded_reviewers reviewers config)
        config)
      config author)
    config

/-- Concrete configuration used by witnesses: `number_of_reviewers = 2`. -/
def cfg_sample_two : Config :=
  { options := { number_of_reviewers := some 2 } }

/-- Concrete configuration used by witnesses: `number_of_reviewers = 1`. -/
def cfg_sample_one : Config :=
  { options := { number_of_reviewers := some 1 } }

/-- Concrete configuration used by witnesses: `load_github_members` present
with value `true`. -/
def cfg_load : Config :=
  { options := { load_github_members := some true } }

/-- Concrete configuration used by witnesses: `load_github_members` present
with value `false`, demonstrating the presence (not truthiness) trigger. -/
def cfg_load_false : Config :=
  { options := { load_github_members := some false } }

/-- Concrete configuration used by witnesses: the group `g` with members `m`
and `n`, excluded globally through `options.exclude`, plus defaults. -/
def cfg_group_exclude : Config :=
  { options := { exclude := some ["g"] },
    reviewers := some { defaults := some ["g", "alice", "m"],
                        groups := some [("g", ["m", "n"])] } }

/-- Concrete roster collaborator used by witnesses: the team `infra` has the
single member `bob`. -/
def rosters_infra : String → List String :=
  fun team => if team = "infra" then ["bob"] else []

theorem mem_js_dedup_go {α : Type} [DecidableEq α] (a : α) :
    ∀ (xs seen : List α), a ∈ js_dedup_go xs seen ↔ a ∈ xs ∧ a ∉ seen := by
  intro xs
  induction xs with
  | nil => intro seen; simp [js_dedup_go]
  | cons x xs ih =>
    intro seen
    by_cases hx : x ∈ seen
    · simp only [js_dedup_go, if_pos hx, ih, List.mem_cons]
      aesop
    · simp only [js_dedup_go, if_neg hx, List.mem_cons, ih]
      by_cases hax : a = x <;> aesop

theorem mem_js_dedup {α : Type} [DecidableEq α] (a : α) (xs : List α) :
    a ∈ js_dedup xs ↔ a ∈ xs := by
  simp [js_dedup, mem_js_dedup_go]

theorem nodup_js_dedup_go {α : Type} [DecidableEq α] :
    ∀ (xs seen : List α), (js_dedup_go xs seen).Nodup := by
  intro xs
  induction xs with
  | nil => intro seen; simp [js_dedup_go]
  | cons x xs ih =>
    intro seen
    by_cases hx : x ∈ seen
    · simpa [js_dedup_go, if_pos hx] using ih seen
    · rw [js_dedup_go, if_neg hx, List.nodup_cons]
      refine ⟨?_, ih (x :: seen)⟩
      intro hmem
      exact ((mem_js_dedup_go x xs (x :: seen)).1 hmem).2 (List.mem_cons_self x seen)

theorem nodup_js_dedup {α : Type} [DecidableEq α] (xs : List α) :
    (js_dedup xs).Nodup :=
  nodup_js_dedup_go xs []

theorem mem_exclude_reviewers (a : String) (reviewers excludes : List String) :
    a ∈ exclude_reviewers reviewers excludes ↔ a ∈ reviewers ∧ a ∉ excludes := by
  simp [exclude_reviewers, List.mem_filter, mem_js_dedup]

theorem nodup_exclude_reviewers (reviewers excludes : List String) :
    (exclude_reviewers reviewers excludes).Nodup :=
  (nodup_js_dedup reviewers).filter _

theorem mem_filter_excluded (a : String) (reviewers : List String) (config : Config) :
    a ∈ filter_excluded_reviewers reviewers config ↔
      a ∈ reviewers ∧
        a ∉ replace_groups_with_individuals (config.options.exclude.getD []) config := by
  simp [filter_excluded_reviewers, mem_exclude_reviewers]

theorem nodup_filter_excluded (reviewers : List String) (config : Config) :
    (filter_excluded_reviewers reviewers config).Nodup :=
  nodup_exclude_reviewers _ _

theorem mem_replace_groups (a : String) (reviewers : List String) (config : Config) :
    a ∈ replace_groups_with_individuals reviewers config ↔
      ∃ r ∈ reviewers,
        (groups_lookup config r = none ∧ a = r) ∨
          ∃ members, groups_lookup config r = some members ∧ a ∈ members := by
  simp only [replace_groups_with_individuals, List.mem_flatMap]
  constructor
  · rintro ⟨r, hr, ha⟩
    refine ⟨r, hr, ?_⟩
    cases hl : groups_lookup config r with
    | none => rw [hl] at ha; simp at ha; exact Or.inl ⟨rfl, ha⟩
    | some members => rw [hl] at ha; exact Or.inr ⟨members, rfl, ha⟩
  · rintro ⟨r, hr, ⟨hl, ha⟩ | ⟨members, hl, ha⟩⟩
    · exact ⟨r, hr, by simp [hl, ha]⟩
    · exact ⟨r, hr, by simp [hl, ha]⟩

theorem replace_groups_eq_self (reviewers : List String) (config : Config)
    (h : ∀ x ∈ reviewers, groups_lookup config x = none) :
    replace_groups_with_individuals reviewers config = reviewers := by
  induction reviewers with
  | nil => rfl
  | cons r rest ih =>
    have hr : groups_lookup config r = none := h r (List.mem_cons_self r rest)
    have hrest : replace_groups_with_individuals rest config = rest :=
      ih fun x hx => h x (List.mem_cons_of_mem r hx)
    simp only [replace_groups_with_individuals, List.flatMap_cons, hr] at *
    simp [hrest]

theorem nodup_fetch_author_stage (rosters : String → List String)
    (reviewers : List String) (config : Config) (author : String)
    (h : reviewers.Nodup) :
    (fetch_author_belongs_to_github_team_members rosters reviewers config author).Nodup := by
  unfold fetch_author_belongs_to_github_team_members
  cases config.options.load_github_members with
  | none => exact h
  | some b => exact nodup_js_dedup _

theorem nodup_filter_already_requested (requested reviewers : List String)
    (config : Config) (h : reviewers.Nodup) :
    (filter_already_requested_reviewers requested reviewers config).Nodup := by
  unfold filter_already_requested_reviewers
  cases config.options.load_github_members with
  | none => exact h
  | some b => exact h.filter _

theorem nodup_randomly_pick (shuffled reviewers : List String) (config : Config)
    (hperm : shuffled.Perm reviewers) (h : reviewers.Nodup) :
    (randomly_pick_reviewers shuffled reviewers config).Nodup := by
  unfold randomly_pick_reviewers
  cases config.options.number_of_reviewers with
  | none => exact h
  | some n => exact (hperm.nodup_iff.mpr h).sublist (List.take_sublist n shuffled)

theorem author_not_in_changed_files_source (glob_match : String → String → Bool)
    (config : Config) (changed_files : List String) (author : String)
    (excludes : List String) (hmem : author ∈ excludes) :
    author ∉ identify_reviewers_by_changed_files glob_match config changed_files excludes := by
  unfold identify_reviewers_by_changed_files
  cases config.files with
  | none => simp
  | some files =>
    intro hc
    exact ((mem_exclude_reviewers _ _ _).1 hc).2 hmem

theorem author_not_in_defaults_source (config : Config) (author : String)
    (excludes : List String) (hmem : author ∈ excludes) :
    author ∉ fetch_default_reviewers config excludes := by
  unfold fetch_default_reviewers
  cases config.reviewers.bind (·.defaults) with
  | none => simp
  | some defaults =>
    intro hc
    exact ((mem_exclude_reviewers _ _ _).1 hc).2 hmem

theorem author_not_in_author_source (config : Config) (author : String) :
    author ∉ identify_reviewers_by_author config author := by
  unfold identify_reviewers_by_author
  cases config.reviewers.bind (·.per_author) with
  | none => simp
  | some per_author =>
    intro hc
    have := (List.mem_filter.1 hc).2
    simp at this

theorem author_not_in_group_fanout (config : Config) (author : String) :
    author ∉ fetch_other_group_members author config := by
  unfold fetch_other_group_members
  by_cases hflag : config.options.enable_group_assignment.getD false = false
  · simp [hflag]
  · simp only [if_neg hflag]
    intro hc
    have := (List.mem_filter.1 ((mem_js_dedup _ _).1 hc)).2
    simp at this

/-- C1: for every configuration, glob matcher, author and changed-file list,
the author of the pull request is never a member of the merged candidate set
obtained from the default, path-matched, author-matched and group fan-out
sources after global exclusion; in particular an author listed in
`reviewers.defaults` or in a files glob entry is removed before output. -/
theorem author_never_in_merged_candidates (glob_match : String → String → Bool)
    (config : Config) (author : String) (changed_files : List String) :
    author ∉ merged_candidates glob_match config author changed_files := by
  intro hc
  have h := (mem_js_dedup _ _).1
    ((mem_filter_excluded _ _ _).1 hc).1
  simp only [List.mem_append] at h
  rcases h with ((h | h) | h) | h
  · exact author_not_in_defaults_source config author [author] (by simp) h
  · exact author_not_in_changed_files_source glob_match config changed_files author
      [author] (by simp) h
  · exact author_not_in_author_source config author h
  · exact author_not_in_group_fanout config author h

/-- C1 witness: a concrete run with the author among the defaults. -/
theorem author_never_in_merged_candidates_witness :
    "alice" ∉ merged_candidates (fun _ _ => true) cfg_group_exclude "alice" ["README.md"] :=
  author_never_in_merged_candidates (fun _ _ => true) cfg_group_exclude "alice" ["README.md"]

/-- C5: `should_request_review` returns `false` exactly when either the
effective `ignore_draft` option (default `true`) holds and the pull request is
a draft, or some effective ignored keyword (default `["DO NOT REVIEW"]`)
occurs in the title as a literal, case-sensitive substring. -/
theorem should_request_review_false_iff (title : String) (is_draft : Bool)
    (config : Config) :
    should_request_review title is_draft config = false ↔
      (config.options.ignore_draft.getD true = true ∧ is_draft = true) ∨
        ∃ keyword ∈ config.options.ignored_keywords.getD ["DO NOT REVIEW"],
          keyword.data <:+: title.data := by
  unfold should_request_review
  by_cases hd : (config.options.ignore_draft.getD true && is_draft) = true
  · have hand : config.options.ignore_draft.getD true = true ∧ is_draft = true := by
      simpa [Bool.and_eq_true] using hd
    simp [hd, hand.1, hand.2]
  · have hd2 : ¬(config.options.ignore_draft.getD true = true ∧ is_draft = true) := by
      intro hand
      exact hd (by simp [hand.1, hand.2])
    simp [hd, hd2, List.any_eq_true, js_includes]

/-- C5 witness: the default keyword in the title suppresses the review request. -/
theorem should_request_review_false_iff_witness :
    should_request_review "please DO NOT REVIEW yet" false ({} : Config) = false ↔
      (({} : Config).options.ignore_draft.getD true = true ∧ false = true) ∨
        ∃ keyword ∈ ({} : Config).options.ignored_keywords.getD ["DO NOT REVIEW"],
          keyword.data <:+: "please DO NOT REVIEW yet".data :=
  should_request_review_false_iff "please DO NOT REVIEW yet" false ({} : Config)

/-- C6: the global exclusion pass removes exactly the group-expanded
`options.exclude` entries from the candidates, so a group name listed there
removes every configured member of that group, however the member entered the
candidate list. -/
theorem filter_excluded_after_group_expansion (reviewers : List String)
    (config : Config) :
    (∀ x, x ∈ filter_excluded_reviewers reviewers config ↔
        x ∈ reviewers ∧
          x ∉ replace_groups_with_individuals (config.options.exclude.getD []) config) ∧
      ∀ g members m, g ∈ config.options.exclude.getD [] →
        groups_lookup config g = some members → m ∈ members →
        m ∉ filter_excluded_reviewers reviewers config := by
  refine ⟨fun x => mem_filter_excluded x reviewers config, ?_⟩
  intro g members m hg hl hm hc
  exact ((mem_filter_excluded m reviewers config).1 hc).2
    ((mem_replace_groups m _ config).2 ⟨g, hg, Or.inr ⟨members, hl, hm⟩⟩)

/-- C6 witness: excluding the group `g` removes its member `m` even though `m`
entered the candidate list as an individual; the unrelated candidate `z`
survives. -/
theorem filter_excluded_after_group_expansion_witness :
    "m" ∉ filter_excluded_reviewers ["m", "z"] cfg_group_exclude ∧
      "z" ∈ filter_excluded_reviewers ["m", "z"] cfg_group_exclude := by
  have h := filter_excluded_after_group_expansion ["m", "z"] cfg_group_exclude
  exact ⟨h.2 "g" ["m", "n"] "m" (by decide) (by decide) (by decide),
    (h.1 "z").2 ⟨by decide, by decide⟩⟩

/-- C7 counterexample: with a duplicate candidate pool of size two and
`number_of_reviewers = 2`, the sample (here drawn through the identity
shuffle, a permutation of the pool) returns two equal elements, not two
distinct ones, refuting the distinctness part of the claim for arbitrary
pools. -/
theorem randomly_pick_distinctness_counterexample :
    List.Perm ["a", "a"] (["a", "a"] : List String) ∧
      cfg_sample_two.options.number_of_reviewers = some 2 ∧
      (["a", "a"] : List String).length = 2 ∧
      randomly_pick_reviewers ["a", "a"] ["a", "a"] cfg_sample_two = ["a", "a"] ∧
      ¬ (randomly_pick_reviewers ["a", "a"] ["a", "a"] cfg_sample_two).Nodup :=
  ⟨List.Perm.refl _, rfl, rfl, rfl, by decide⟩

/-- C7 as amended: sampling is the identity when `number_of_reviewers` is
absent; on a duplicate-free pool with `n` at most the pool size it returns
`n` distinct elements of the pool; and when `n` is at least the pool size it
returns the entire pool (up to the sampling order). -/
theorem randomly_pick_spec (shuffled reviewers : List String) (config : Config)
    (hperm : shuffled.Perm reviewers) :
    (config.options.number_of_reviewers = none →
        randomly_pick_reviewers shuffled reviewers config = reviewers) ∧
      (∀ n, config.options.number_of_reviewers = some n → reviewers.Nodup →
        n ≤ reviewers.length →
        (randomly_pick_reviewers shuffled reviewers config).length = n ∧
          (randomly_pick_reviewers shuffled reviewers config).Nodup ∧
          ∀ x ∈ randomly_pick_reviewers shuffled reviewers config, x ∈ reviewers) ∧
      ∀ n, config.options.number_of_reviewers = some n → reviewers.length ≤ n →
        (randomly_pick_reviewers shuffled reviewers config).Perm reviewers := by
  refine ⟨?_, ?_, ?_⟩
  · intro h
    simp [randomly_pick_reviewers, h]
  · intro n h hnd hlen
    simp only [randomly_pick_reviewers, h]
    refine ⟨?_, ?_, ?_⟩
    · rw [List.length_take, hperm.length_eq]
      exact Nat.min_eq_left hlen
    · exact (hperm.nodup_iff.mpr hnd).sublist (List.take_sublist n shuffled)
    · intro x hx
      exact hperm.subset (List.take_subset n shuffled hx)
  · intro n h hlen
    simp only [randomly_pick_reviewers, h]
    rw [List.take_of_length_le (by rw [hperm.length_eq]; exact hlen)]
    exact hperm

/-- C7 witness: a concrete sample of one reviewer out of a two-element pool. -/
theorem randomly_pick_spec_witness :
    List.Perm ["b", "a"] (["a", "b"] : List String) ∧
      (randomly_pick_reviewers ["b", "a"] ["a", "b"] cfg_sample_one).length = 1 ∧
      (randomly_pick_reviewers ["b", "a"] ["a", "b"] cfg_sample_one).Nodup ∧
      ∀ x ∈ randomly_pick_reviewers ["b", "a"] ["a", "b"] cfg_sample_one,
        x ∈ (["a", "b"] : List String) := by
  have hperm : List.Perm ["b", "a"] (["a", "b"] : List String) := by decide
  have h := (randomly_pick_spec ["b", "a"] ["a", "b"] cfg_sample_one hperm).2.1 1
    rfl (by decide) (by decide)
  exact ⟨hperm, h.1, h.2.1, h.2.2⟩

/-- C8: on a list whose entries name no group, group expansion is the
identity, and a second application of the expansion agrees with the first. -/
theorem replace_groups_idempotent_on_individuals (config : Config)
    (reviewers : List String)
    (h : ∀ x ∈ reviewers, groups_lookup config x = none) :
    replace_groups_with_individuals reviewers config = reviewers ∧
      replace_groups_with_individuals
          (replace_groups_with_individuals reviewers config) config =
        replace_groups_with_individuals reviewers config := by
  have h1 := replace_groups_eq_self reviewers config h
  exact ⟨h1, by rw [h1]; exact h1⟩

/-- C8 witness: a two-individual list under a configuration that does define a
group. -/
theorem replace_groups_idempotent_on_individuals_witness :
    replace_groups_with_individuals ["x", "alice"] cfg_group_exclude = ["x", "alice"] ∧
      replace_groups_with_individuals
          (replace_groups_with_individuals ["x", "alice"] cfg_group_exclude)
          cfg_group_exclude =
        replace_groups_with_individuals ["x", "alice"] cfg_group_exclude :=
  replace_groups_idempotent_on_individuals cfg_group_exclude ["x", "alice"] (by decide)

/-- C2: the global exclusion pass emits a duplicate-free list, both
asynchronous stages preserve freedom from duplicates, and the sequence the
pipeline finally hands to the assignment collaborator is duplicate-free. -/
theorem final_handoff_nodup_claim (rosters : String → List String)
    (requested shuffled reviewers : List String) (config : Config) (author : String)
    (hperm : shuffled.Perm (filter_excluded_reviewers reviewers config)) :
    (filter_excluded_reviewers reviewers config).Nodup ∧
      (∀ l : List String, l.Nodup →
        (fetch_author_belongs_to_github_team_members rosters l config author).Nodup) ∧
      (∀ l : List String, l.Nodup →
        (filter_already_requested_reviewers requested l config).Nodup) ∧
      (final_handoff rosters requested shuffled reviewers config author).Nodup := by
  have h1 := nodup_filter_excluded reviewers config
  refine ⟨h1, fun l hl => nodup_fetch_author_stage rosters l config author hl,
    fun l hl => nodup_filter_already_requested requested l config hl, ?_⟩
  exact nodup_filter_already_requested _ _ _
    (nodup_fetch_author_stage _ _ _ _
      (nodup_randomly_pick _ _ _ hperm h1))

/-- C2 witness: a concrete pipeline run on a two-element candidate list. -/
theorem final_handoff_nodup_claim_witness :
    List.Perm ["a", "b"] (filter_excluded_reviewers ["a", "b"] ({} : Config)) ∧
      (final_handoff (fun _ => []) [] ["a", "b"] ["a", "b"] ({} : Config) "z").Nodup := by
  have hperm : List.Perm ["a", "b"] (filter_excluded_reviewers ["a", "b"] ({} : Config)) := by
    decide
  exact ⟨hperm,
    (final_handoff_nodup_claim (fun _ => []) [] ["a", "b"] ["a", "b"] ({} : Config) "z"
      hperm).2.2.2⟩

/-- C3: both asynchronous stages return their input unchanged when
`load_github_members` is absent from the options; when the option is present,
whatever its value, the already-requested filter removes exactly the reviewers
returned by the requested-reviewers lookup, and the team stage computes
independently of the value of the option (presence, not truthiness, is the
trigger). -/
theorem live_stages_presence_gate (rosters : String → List String)
    (requested reviewers : List String) (config : Config) (author : String) :
    (config.options.load_github_members = none →
        fetch_author_belongs_to_github_team_members rosters reviewers config author =
            reviewers ∧
          filter_already_requested_reviewers requested reviewers config = reviewers) ∧
      (config.options.load_github_members ≠ none →
        (∀ x, x ∈ filter_already_requested_reviewers requested reviewers config ↔
            x ∈ reviewers ∧ x ∉ requested) ∧
          ∀ b, config.options.load_github_members = some b →
            fetch_author_belongs_to_github_team_members rosters reviewers config author =
              fetch_author_belongs_to_github_team_members rosters reviewers
                { config with
                    options := { config.options with load_github_members := some true } }
                author) := by
  constructor
  · intro h
    constructor
    · simp [fetch_author_belongs_to_github_team_members, h]
    · simp [filter_already_requested_reviewers, h]
  · intro h
    constructor
    · intro x
      cases hl : config.options.load_github_members with
      | none => exact absurd hl h
      | some b =>
        simp [filter_already_requested_reviewers, hl, List.mem_filter]
    · intro b hb
      simp only [fetch_author_belongs_to_github_team_members, hb]

/-- C3 witness: with `load_github_members: false` the already-requested filter
still runs and removes the requested reviewer; with the option absent the team
stage is the identity. -/
theorem live_stages_presence_gate_witness :
    "a" ∉ filter_already_requested_reviewers ["a"] ["a", "b"] cfg_load_false ∧
      "b" ∈ filter_already_requested_reviewers ["a"] ["a", "b"] cfg_load_false ∧
      fetch_author_belongs_to_github_team_members (fun _ => []) ["a", "b"]
          ({} : Config) "z" = ["a", "b"] := by
  have h := live_stages_presence_gate (fun _ => []) ["a"] ["a", "b"] cfg_load_false "z"
  have h0 := live_stages_presence_gate (fun _ => []) ["a"] ["a", "b"] ({} : Config) "z"
  refine ⟨?_, ?_, (h0.1 rfl).1⟩
  · intro hmem
    exact (((h.2 (by decide)).1 "a").1 hmem).2 (by decide)
  · exact ((h.2 (by decide)).1 "b").2 ⟨by decide, by decide⟩

/-- C4: with `load_github_members` present, an identifier belongs to the team
stage output exactly when it is a non-team candidate, or it differs from the
author and lies in the roster of some referenced team that is kept — which,
with `force_pick` falsy, requires the roster to contain the author, and with
`force_pick` set does not. Rosters are therefore kept or discarded whole, the
author is removed from the roster side only, and the two sides are unioned. -/
theorem team_reconciliation_membership (rosters : String → List String)
    (reviewers : List String) (config : Config) (author x : String) (b : Bool)
    (hload : config.options.load_github_members = some b) :
    x ∈ fetch_author_belongs_to_github_team_members rosters reviewers config author ↔
      (x ∈ reviewers ∧ js_starts_with x "team:" = false) ∨
        (¬ x = author ∧ ∃ r ∈ reviewers, js_starts_with r "team:" = true ∧
          x ∈ rosters (strip_team_tag r) ∧
          (config.options.force_pick.getD false = true ∨
            author ∈ rosters (strip_team_tag r))) := by
  simp only [fetch_author_belongs_to_github_team_members, hload]
  by_cases hfp : config.options.force_pick.getD false = true
  · simp [hfp, mem_js_dedup, List.mem_append, List.mem_filter, List.mem_flatten,
      List.mem_map, List.mem_flatMap]
    constructor
    · rintro (h | h)
      · exact Or.inl h
      · rcases h with ⟨a, ⟨ha, hpre⟩, hx, hne⟩
        exact Or.inr ⟨hne, a, ha, hpre, hx⟩
    · rintro (h | h)
      · exact Or.inl h
      · rcases h with ⟨hne, r, hr, hpre, hx⟩
        exact Or.inr ⟨r, ⟨hr, hpre⟩, hx, hne⟩
  · simp [hfp, mem_js_dedup, List.mem_append, List.mem_filter, List.mem_flatten,
      List.mem_map, List.mem_flatMap]
    constructor
    · rintro (h | h)
      · exact Or.inl h
      · rcases h with ⟨l, ⟨⟨a1, ⟨ha1, hpre⟩, hl⟩, hauth⟩, hx, hne⟩
        subst hl
        exact Or.inr ⟨hne, a1, ha1, hpre, hx, hauth⟩
    · rintro (h | h)
      · exact Or.inl h
      · rcases h with ⟨hne, r, hr, hpre, hx, hauth⟩
        exact Or.inr ⟨rosters (strip_team_tag r), ⟨⟨r, ⟨hr, hpre⟩, rfl⟩, hauth⟩, hx, hne⟩

/-- C4 witness: the scenario of the specification — candidates
`["team:infra", "alice"]`, author `alice`, `force_pick` unset, infra roster
`["bob"]` not containing the author: the roster is discarded whole, so `bob`
is absent and only `alice` remains. -/
theorem team_reconciliation_membership_witness :
    cfg_load.options.load_github_members = some true ∧
      "bob" ∉ fetch_author_belongs_to_github_team_members rosters_infra
          ["team:infra", "alice"] cfg_load "alice" ∧
      "alice" ∈ fetch_author_belongs_to_github_team_members rosters_infra
          ["team:infra", "alice"] cfg_load "alice" := by
  refine ⟨rfl, ?_, ?_⟩
  · intro hmem
    have h := (team_reconciliation_membership rosters_infra ["team:infra", "alice"]
      cfg_load "alice" "bob" true rfl).1 hmem
    revert h
    decide
  · exact (team_reconciliation_membership rosters_infra ["team:infra", "alice"]
      cfg_load "alice" "alice" true rfl).2 (Or.inl (by decide))

/-- C9: when the team-membership query throws with status 404,
`list_team_members` returns the empty roster and emits the warning, and the
reconciliation stage fed with such rosters completes without throwing. -/
theorem team_not_found_empty_roster (e : ApiError) (h : e.status = 404) :
    (list_team_members (.error e)).1 = some [] ∧
      (list_team_members (.error e)).2 = ["No team was found"] ∧
      ∀ (config : Config) (reviewers : List String) (author : String),
        (fetch_author_team_stage (fun _ => (list_team_members (.error e)).1)
            reviewers config author).isSome = true := by
  have hlt : list_team_members (.error e) = (some [], ["No team was found"]) := by
    simp [list_team_members, h]
  refine ⟨by rw [hlt], by rw [hlt], ?_⟩
  intro config reviewers author
  simp only [hlt]
  unfold fetch_author_team_stage
  cases config.options.load_github_members with
  | none => simp
  | some b =>
    simp [List.any_eq_true]

/-- C9 witness: a 404 outcome for the `infra` lookup leaves the pipeline
running. -/
theorem team_not_found_empty_roster_witness :
    (list_team_members (.error { status := 404 })).1 = some [] ∧
      (fetch_author_team_stage
          (fun _ => (list_team_members (.error { status := 404 })).1)
          ["team:infra"] cfg_load "alice").isSome = true := by
  have h := team_not_found_empty_roster { status := 404 } rfl
  exact ⟨h.1, h.2.2 cfg_load ["team:infra"] "alice"⟩

/-- C10: when the team-membership query throws with a status other than 404,
`list_team_members` swallows the error and returns the JavaScript `undefined`
(not an empty roster, and no re-thrown error), and the failure surfaces only
in the reconciliation stage, which throws a TypeError when — with the live
feature on, `force_pick` falsy, and at least one `team:` reference present —
the roster filter calls a list method on the undefined roster. -/
theorem non_not_found_roster_undefined (e : ApiError) (h : ¬ e.status = 404) :
    (list_team_members (.error e)).1 = none ∧
      ¬ (list_team_members (.error e)).1 = some [] ∧
      ∀ (config : Config) (reviewers : List String) (author : String) (b : Bool),
        config.options.load_github_members = some b →
        config.options.force_pick.getD false = false →
        (∃ r ∈ reviewers, js_starts_with r "team:" = true) →
        fetch_author_team_stage (fun _ => (list_team_members (.error e)).1)
            reviewers config author = none := by
  have hlt : (list_team_members (.error e)).1 = none := by
    simp [list_team_members, h]
  refine ⟨hlt, by rw [hlt]; simp, ?_⟩
  rintro config reviewers author b hload hfp ⟨r, hr, hpre⟩
  simp only [hlt]
  unfold fetch_author_team_stage
  rw [hload]
  simp only [hfp]
  rw [if_pos]
  refine ⟨trivial, ?_⟩
  simp [List.any_eq_true, List.mem_map, List.mem_filter]
  exact ⟨r, hr, hpre⟩

/-- C10 witness: a 500 outcome yields an undefined roster and the stage
crashes on `["team:infra", "alice"]`. -/
theorem non_not_found_roster_undefined_witness :
    (list_team_members (.error { status := 500 })).1 = none ∧
      fetch_author_team_stage
          (fun _ => (list_team_members (.error { status := 500 })).1)
          ["team:infra", "alice"] cfg_load "alice" = none := by
  have h := non_not_found_roster_undefined { status := 500 } (by decide)
  exact ⟨h.1, h.2.2 cfg_load ["team:infra", "alice"] "alice" true rfl rfl
    ⟨"team:infra", by decide, by decide⟩⟩

end AutoRequestReview
